import Mathlib

/-!
Verification development for the universal-pdf-converter repository.

The definitions below are a shallow embedding of the Express server in
`src/unnamed/part_000` (the second document in that file): the text-encoding
recovery chain (`detectAndConvertEncoding`), the text layout performed by
`createTextImage`, the Excel serialization of the `.xlsx`/`.xls` branch of
`convertToImage`, the HWP salvage heuristic of the `.hwp`/`.hwpx` branch,
the compression planner (`calculateCompressionSettings`), the per-file
assembly loop of `app.post('/convert')`, and the delete endpoint
(`app.delete('/delete/:filename')`).

Text is modelled as `List Char`, byte buffers as `List Nat`, JavaScript
numbers as `ℚ` (exact arithmetic; all claims checked here are away from
floating-point boundary effects), and fallible external calls (iconv
decoding, statistical detection, per-file extraction) as `Option`/`Except`
valued oracles.
-/

set_option maxRecDepth 8192

namespace UPC

/-- Whitespace test modelling the JavaScript regexp class `\s` on the
characters the pipeline actually produces (space, tab, LF, CR, VT, FF). -/
def isWs (c : Char) : Bool :=
  c = ' ' || c = '\t' || c = '\n' || c = '\r' || c = Char.ofNat 11 || c = Char.ofNat 12

mutual

/-- Scanner for the JavaScript `cleanText.split(/\s+/)` call in
`createTextImage`: `acc` holds the current token reversed; hitting a
whitespace character emits the token and switches to run-skipping state. -/
def splitWsAux : List Char → List Char → List (List Char)
  | [], acc => [acc.reverse]
  | c :: rest, acc =>
      if isWs c then acc.reverse :: splitWsRun rest
      else splitWsAux rest (c :: acc)

/-- State of the splitter while consuming a whitespace run whose separator
has already been emitted. -/
def splitWsRun : List Char → List (List Char)
  | [] => [[]]
  | c :: rest => if isWs c then splitWsRun rest else splitWsAux rest [c]

end

/-- JavaScript `text.split(/\s+/)` as used by `createTextImage`: a leading
whitespace run yields an initial empty token and a trailing run a final
empty token, exactly as in JavaScript. -/
def splitWs (t : List Char) : List (List Char) := splitWsAux t []

/-- The greedy line-wrapping loop of `createTextImage` with
`maxLineLength = maxLen`; `cur` is the JavaScript `currentLine`.  The test
`(currentLine + ' ' + word).length <= maxLineLength` is
`cur.length + 1 + w.length ≤ maxLen`; when it fails and `currentLine` is
empty the word is hard-split once, otherwise the current line is flushed
and the word becomes the new current line unsplit. -/
def wrapLoop (maxLen : ℕ) : List (List Char) → List Char → List (List Char)
  | [], cur => if cur = [] then [] else [cur]
  | w :: ws, cur =>
      if cur.length + 1 + w.length ≤ maxLen then
        wrapLoop maxLen ws (if cur = [] then w else cur ++ ' ' :: w)
      else if cur = [] then
        w.take maxLen :: wrapLoop maxLen ws (w.drop maxLen)
      else
        cur :: wrapLoop maxLen ws w

/-- Control characters removed by `createTextImage` before layout,
the regexp class `[\x00-\x08\x0B\x0C\x0E-\x1F\x7F]`. -/
def isCtrlStripped (c : Char) : Bool :=
  c.toNat ≤ 8 || c.toNat = 11 || c.toNat = 12 ||
    (14 ≤ c.toNat && c.toNat ≤ 31) || c.toNat = 127

/-- The chain of XML escapes applied by `createTextImage`; the `&` pass runs
first, so expanding per character agrees with the successive
`String.replace` calls of the source. -/
def escapeChar (c : Char) : List Char :=
  if c = '&' then ("&amp;").data
  else if c = '<' then ("&lt;").data
  else if c = '>' then ("&gt;").data
  else if c = Char.ofNat 34 then ("&quot;").data
  else if c = Char.ofNat 39 then ("&#39;").data
  else [c]

/-- XML-escape a whole text. -/
def escapeXml (t : List Char) : List Char := (t.map escapeChar).flatten

/-- Placeholder substituted by `createTextImage` when the input text is
empty or blank. -/
def emptyTextDefault : List Char := ("내용이 비어 있습니다.").data

/-- JavaScript `!text || text.trim().length === 0`. -/
def isBlank (t : List Char) : Bool := t.all isWs

/-- The empty-text substitution at the top of `createTextImage`. -/
def prepareText (t : List Char) : List Char := if isBlank t then emptyTextDefault else t

/-- The `cleanText` value of `createTextImage`: truncate to 3000 characters
first, then strip control characters, then escape XML metacharacters. -/
def cleanText (t : List Char) : List Char :=
  escapeXml (((prepareText t).take 3000).filter (fun c => !(isCtrlStripped c)))

/-- All wrapped lines computed by `createTextImage` (JavaScript `lines`). -/
def textLines (t : List Char) : List (List Char) :=
  wrapLoop 70 (splitWs (cleanText t)) []

/-- The lines actually rendered
(JavaScript `displayLines = lines.slice(0, 40)`). -/
def displayLines (t : List Char) : List (List Char) := (textLines t).take 40

/-- Result record of `calculateCompressionSettings`. -/
structure CompressionSettings where
  quality : ℤ
  compressionRatio : ℚ
deriving DecidableEq

/-- The final clamp `Math.max(10, Math.min(100, quality))`. -/
def clampQuality (q : ℤ) : ℤ := max 10 (min 100 q)

/-- The `(quality, compressionRatio)` pair selected by the `switch` statement
of `calculateCompressionSettings` before the clamp.  `targetSizeKB` is an
`Option` because the request field may be absent; the JavaScript truthiness
test `targetSizeKB && currentSizeKB` is `t ≠ 0 ∧ currentSizeKB ≠ 0`.  The
initial values `quality = 80`, `compressionRatio = 1` survive whenever the
custom branch takes no action, and the `default` arm restores the medium
pair. -/
def compressionPair (compressionType : String) (targetSizeKB : Option ℚ)
    (currentSizeKB : ℚ) : ℤ × ℚ :=
  match compressionType with
  | "low" => (95, 9/10)
  | "medium" => (80, 7/10)
  | "high" => (60, 1/2)
  | "custom" =>
      match targetSizeKB with
      | some t =>
          if t ≠ 0 ∧ currentSizeKB ≠ 0 then
            let ratio := t / currentSizeKB
            ((if ratio > 9/10 then 95
              else if ratio > 7/10 then 85
              else if ratio > 1/2 then 70
              else if ratio > 3/10 then 55
              else 40 : ℤ), ratio)
          else (80, 1)
      | none => (80, 1)
  | _ => (80, 7/10)

/-- `calculateCompressionSettings(compressionType, targetSizeKB,
currentSizeKB)` from the source. -/
def calculateCompressionSettings (compressionType : String)
    (targetSizeKB : Option ℚ) (currentSizeKB : ℚ) : CompressionSettings :=
  { quality := clampQuality (compressionPair compressionType targetSizeKB currentSizeKB).1
    compressionRatio := (compressionPair compressionType targetSizeKB currentSizeKB).2 }

/-- The plan computation inside `app.post('/convert')`: the request's
`compressionRatio` field is destructured but never forwarded to
`calculateCompressionSettings`, which instead receives
`totalOriginalSize / 1024`. -/
def convertPlan (compression : String) (targetSizeKB : Option ℚ)
    (compressionRatio : Option ℚ) (fileSizes : List ℚ) : CompressionSettings :=
  calculateCompressionSettings compression targetSizeKB (fileSizes.sum / 1024)

/-- One page of the output PDF assembled by `app.post('/convert')`. -/
inductive Page
  | native (srcFile : String) (pageIndex : ℕ)
  | image (quality : ℤ)
  | error (originalname : String) (message : String)
deriving DecidableEq

/-- Outcome of processing one file inside the per-file loop of
`app.post('/convert')`:
`missing` is the `fs.existsSync` guard failing (skip, `continue`);
`pdfPages n` is the `.pdf` branch copying all `n` source pages;
`imageOk` is `convertToImage` returning `true` with the temp image present;
`imageFail` is `convertToImage` returning `false` (or the temp image
missing), which silently adds no page;
`raises msg` is an exception caught by the `catch (fileError)` handler. -/
inductive FileOutcome
  | missing
  | pdfPages (n : ℕ)
  | imageOk
  | imageFail
  | raises (msg : String)
deriving DecidableEq

/-- A file entry of the conversion request together with the behaviour its
processing exhibits at conversion time. -/
structure ConvFile where
  filename : String
  originalname : String
  outcome : FileOutcome
deriving DecidableEq

/-- Pages contributed by one file in the per-file loop. -/
def pagesFor (quality : ℤ) (f : ConvFile) : List Page :=
  match f.outcome with
  | .missing => []
  | .pdfPages n => (List.range n).map (Page.native f.filename)
  | .imageOk => [Page.image quality]
  | .imageFail => []
  | .raises msg => [Page.error f.originalname msg]

/-- The whole per-file loop: files are processed strictly in order and each
appends its pages to the shared output document. -/
def assemblePages (quality : ℤ) (files : List ConvFile) : List Page :=
  (files.map (pagesFor quality)).flatten

/-- Number of pages a file contributes. -/
def pageContribution (f : ConvFile) : ℕ :=
  match f.outcome with
  | .missing => 0
  | .pdfPages n => n
  | .imageOk => 1
  | .imageFail => 0
  | .raises _ => 1

/-- Result of `convertToImage` as observed by the caller: `okImage` is the
literal `true` return after writing the temp image, `pdfMarker` the string
`'pdf'`, and `errorImage` the `createErrorImage` paths (which also return
`true`, embedding a diagnostic page image). -/
inductive ConvOut
  | okImage
  | pdfMarker
  | errorImage (msg : String)
deriving DecidableEq

/-- Image extensions of the first `switch` group in `convertToImage`. -/
def imageExts : List String :=
  [".jpg", ".jpeg", ".png", ".gif", ".bmp", ".tiff", ".tif", ".webp"]

/-- `convertToImage` with its per-branch fallible work abstracted as
`step : Except String String` (the extracted text on success, the thrown
message on failure).  Every branch catches its own failure and substitutes a
diagnostic error image; the image branches have no inner handler, so their
failures reach the outer `catch` which substitutes the generic message. -/
def convertToImage (ext : String) (step : Except String String) : ConvOut :=
  if imageExts.contains ext then
    match step with
    | .ok _ => .okImage
    | .error _ => .errorImage "파일 변환 중 오류가 발생했습니다."
  else if ext = ".pdf" then .pdfMarker
  else if ext = ".docx" then
    match step with
    | .ok _ => .okImage
    | .error _ => .errorImage "DOCX 파일을 읽을 수 없습니다."
  else if ext = ".xlsx" || ext = ".xls" then
    match step with
    | .ok _ => .okImage
    | .error m => .errorImage ("Excel 파일 처리 오류: " ++ m)
  else if ext = ".txt" then
    match step with
    | .ok _ => .okImage
    | .error _ => .errorImage "텍스트 파일을 읽을 수 없습니다."
  else if ext = ".html" || ext = ".htm" then
    match step with
    | .ok _ => .okImage
    | .error _ => .errorImage "HTML 파일을 읽을 수 없습니다."
  else if ext = ".hwp" || ext = ".hwpx" then
    match step with
    | .ok _ => .okImage
    | .error m => .errorImage ("HWP 파일 처리 오류: " ++ m)
  else
    match step with
    | .ok t =>
        if (t.data.any fun c =>
              (0xAC00 ≤ c.toNat && c.toNat ≤ 0xD7A3) ||
              ('a' ≤ c && c ≤ 'z') || ('A' ≤ c && c ≤ 'Z') ||
              ('0' ≤ c && c ≤ '9')) then .okImage
        else .errorImage ("지원하지 않는 파일 형식: " ++ ext)
    | .error _ => .errorImage ("파일을 읽을 수 없습니다: " ++ ext)

/-- Response of `app.delete('/delete/:filename')`. -/
structure DeleteResponse where
  status : ℕ
  success : Bool
  error : Option String
deriving DecidableEq

/-- The delete endpoint over a storage state listing the stored filenames:
`fs.existsSync` decides the branch; a present file is unlinked and a success
body returned, an absent one yields a 404 error body. -/
def deleteEndpoint (storage : List String) (filename : String) :
    List String × DeleteResponse :=
  if filename ∈ storage then
    (storage.erase filename, ⟨200, true, none⟩)
  else
    (storage, ⟨404, false, some "File not found"⟩)

/-- External decoding collaborators of `detectAndConvertEncoding`:
`detect` is `jschardet.detect` (its `encoding` field may be `null`),
`encodingExists` and `decode` are the iconv-lite calls (`decode` returning
`none` models a thrown error), and `utf8` is `buffer.toString('utf8')`,
which is total. -/
structure DecodeOracle where
  detect : List ℕ → Option String
  encodingExists : String → Bool
  decode : String → List ℕ → Option String
  utf8 : List ℕ → String

/-- The Western-to-Korean remap at the top of `detectAndConvertEncoding`. -/
def remapDetected : Option String → Option String
  | some e => if e = "windows-1252" || e = "ISO-8859-1" then some "euc-kr" else some e
  | none => none

/-- The `encodingsToTry` candidate list. -/
def encodingCandidates (o : DecodeOracle) (buf : List ℕ) : List (Option String) :=
  [remapDetected (o.detect buf), some "utf8", some "euc-kr", some "cp949",
   some "iso-2022-kr"]

/-- The acceptance test of the decode loop: the decoded text is truthy and
contains a Korean syllable or an ASCII alphanumeric character. -/
def looksReasonable (s : String) : Bool :=
  s.data.any fun c =>
    (0xAC00 ≤ c.toNat && c.toNat ≤ 0xD7A3) ||
    ('a' ≤ c && c ≤ 'z') || ('A' ≤ c && c ≤ 'Z') || ('0' ≤ c && c ≤ '9')

/-- The decode loop of `detectAndConvertEncoding`: candidates are tried in
order, a null candidate or unknown encoding is skipped, a throwing decode is
swallowed by the inner `catch`, and the first plausible decode wins. -/
def firstAccepted (o : DecodeOracle) (buf : List ℕ) :
    List (Option String) → Option String
  | [] => none
  | none :: rest => firstAccepted o buf rest
  | some e :: rest =>
      if o.encodingExists e then
        match o.decode e buf with
        | some d => if looksReasonable d then some d else firstAccepted o buf rest
        | none => firstAccepted o buf rest
      else firstAccepted o buf rest

/-- `detectAndConvertEncoding(buffer, filePath)`: the loop result, or the
naive UTF-8 decode when no candidate is accepted. -/
def detectAndConvertEncoding (o : DecodeOracle) (buf : List ℕ) : String :=
  match firstAccepted o buf (encodingCandidates o buf) with
  | some d => d
  | none => o.utf8 buf

/-- One worksheet of an opened workbook: the sheet name and the rows that
`XLSX.utils.sheet_to_csv` serializes, as lists of cell texts. -/
structure Sheet where
  sheetName : String
  rows : List (List String)
deriving DecidableEq

/-- An opened workbook (`workbook.SheetNames` with their sheets, in order). -/
structure Workbook where
  sheets : List Sheet
deriving DecidableEq

/-- JavaScript `String.prototype.trim`. -/
def trimChars (t : List Char) : List Char :=
  ((t.dropWhile isWs).reverse.dropWhile isWs).reverse

/-- JavaScript `str.split('\n')` (exact separator, no run collapsing). -/
def splitNl : List Char → List (List Char)
  | [] => [[]]
  | c :: rest =>
      if c = '\n' then [] :: splitNl rest
      else
        match splitNl rest with
        | [] => [[c]]
        | l :: ls => (c :: l) :: ls

/-- Model of `XLSX.utils.sheet_to_csv(worksheet, {FS: '|'})`: cells joined
with a bar, rows joined with a newline. -/
def sheetToCsv (s : Sheet) : List Char :=
  List.intercalate ['\n'] (s.rows.map fun r => List.intercalate ['|'] (r.map String.data))

/-- JavaScript `csvContent.split('\n')`. -/
def csvLines (s : Sheet) : List (List Char) := splitNl (sheetToCsv s)

/-- The artefact line `'|'.repeat(10)` skipped by the row loop. -/
def tenBars : List Char := List.replicate 10 '|'

/-- The data lines the row loop keeps for one sheet: the first 20 CSV lines,
trimmed, dropping blank lines and the all-bars artefact line. -/
def keptRows (s : Sheet) : List (List Char) :=
  ((csvLines s).take 20).filterMap fun l =>
    let tl := trimChars l
    if tl ≠ [] ∧ tl ≠ tenBars then some tl else none

/-- Whether the per-sheet row-truncation notice is appended
(`lines.length > 20`). -/
def rowNotice (s : Sheet) : Bool := decide (20 < (csvLines s).length)

/-- Text appended to `excelContent` for one sheet: the `[SheetName]` header,
the kept rows each with a newline, the optional row notice, and the blank
separator line. -/
def sheetBlock (s : Sheet) : List Char :=
  '[' :: s.sheetName.data ++ [']', '\n'] ++
    ((keptRows s).map (fun r => r ++ ['\n'])).flatten ++
    (if rowNotice s then ("... (더 많은 행이 있습니다)\n").data else []) ++ ['\n']

/-- The full `excelContent` before the emptiness fallback: the first three
sheets serialized, then the more-sheets notice when over three sheets
exist. -/
def excelBody (wb : Workbook) : List Char :=
  ((wb.sheets.take 3).map sheetBlock).flatten ++
    (if 3 < wb.sheets.length then
      ("... 그리고 ").data ++ (toString (wb.sheets.length - 3)).data ++
        ("개의 시트가 더 있습니다.").data
     else [])

/-- The text handed to `createTextImage` by the `.xlsx`/`.xls` branch, with
the `!excelContent.trim()` fallback. -/
def excelExtract (wb : Workbook) : List Char :=
  if trimChars (excelBody wb) = [] then
    ("Excel 파일에서 데이터를 추출할 수 없습니다.").data
  else excelBody wb

/-- Korean syllable range `[가-힣]` (U+AC00 to U+D7A3). -/
def isKorSyl (c : Char) : Bool := 0xAC00 ≤ c.toNat && c.toNat ≤ 0xD7A3

/-- The slightly wider range `[가-힯]` used by the binary Korean
pattern of the HWP branch. -/
def isKorWide (c : Char) : Bool := 0xAC00 ≤ c.toNat && c.toNat ≤ 0xD7AF

/-- Latin letters `[a-zA-Z]`. -/
def isLatinLetter (c : Char) : Bool := ('a' ≤ c && c ≤ 'z') || ('A' ≤ c && c ≤ 'Z')

/-- Character class of the binary Korean pattern `[가-힯\s]`. -/
def korWsClass (c : Char) : Bool := isKorWide c || isWs c

/-- Character class of the binary mixed pattern `[a-zA-Z0-9\s.,!?가-힣]`. -/
def asciiMixClass (c : Char) : Bool :=
  isLatinLetter c || ('0' ≤ c && c ≤ '9') || isWs c ||
    c = '.' || c = ',' || c = '!' || c = Char.ofNat 63 || isKorSyl c

/-- Maximal runs of characters satisfying `p`, in order, as a global regexp
`/[class]+/g` would return them; `acc` holds the current run reversed. -/
def runsAux (p : Char → Bool) : List Char → List Char → List (List Char)
  | [], acc => if acc = [] then [] else [acc.reverse]
  | c :: rest, acc =>
      if p c then runsAux p rest (c :: acc)
      else if acc = [] then runsAux p rest []
      else acc.reverse :: runsAux p rest []

/-- All maximal runs of `p`-characters of a text. -/
def runs (p : Char → Bool) (s : List Char) : List (List Char) :=
  runsAux p s []

/-- Fuelled scanner for `/[가-힣][가-힣\s]{2,}/g` (the per-encoding Korean
pattern of HWP Method 1): a Korean syllable followed greedily by at least
two Korean-or-whitespace characters; a failed attempt advances one
character, a match resumes after its end.  Each step consumes at least one
character, so `fuel = length` is always sufficient. -/
def krMatchesFuel : ℕ → List Char → List (List Char)
  | 0, _ => []
  | _, [] => []
  | fuel + 1, c :: rest =>
      if isKorSyl c then
        let tail := rest.takeWhile fun x => isKorSyl x || isWs x
        if 2 ≤ tail.length then
          (c :: tail) :: krMatchesFuel fuel (rest.dropWhile fun x => isKorSyl x || isWs x)
        else krMatchesFuel fuel rest
      else krMatchesFuel fuel rest

/-- All global matches of the Method 1 Korean pattern. -/
def krMatches (l : List Char) : List (List Char) := krMatchesFuel l.length l

/-- JavaScript `Array.prototype.join(' ')` on a list of texts. -/
def joinSp (ls : List (List Char)) : List Char := List.intercalate [' '] ls

/-- Method 1 of the HWP branch: for each of the four candidate encodings the
whole buffer is decoded (an oracle input here) and the Korean-run matches,
when any, are appended joined by spaces plus a newline. -/
def hwpMethod1 (decodes : List String) : List Char :=
  (decodes.map fun d =>
     let ms := krMatches d.data
     if ms ≠ [] then joinSp ms ++ ['\n'] else []).flatten

/-- The filter applied to the binary Korean matches:
`match.length > 3 && match.trim().length > 0`. -/
def koreanCollected (binaryText : List Char) : List (List Char) :=
  (runs korWsClass binaryText).filter fun m =>
    3 < m.length ∧ m.any (fun c => !(isWs c))

/-- Method 2, Korean pattern: `binaryText.match(/[가-힯\s]+/g)`,
appended (filtered, space-joined, newline) only when the match list is
non-null. -/
def hwpMethod2Kor (binaryText : List Char) : List Char :=
  if runs korWsClass binaryText ≠ [] then
    joinSp (koreanCollected binaryText) ++ ['\n']
  else []

/-- The raw matches of `/[a-zA-Z0-9\s.,!?가-힣]{4,}/g`: maximal class runs of
length at least four. -/
def asciiRuns (binaryText : List Char) : List (List Char) :=
  (runs asciiMixClass binaryText).filter fun m => 4 ≤ m.length

/-- The filter and cap applied to the binary mixed matches:
`match.length > 4 && match.trim().length > 0 && /[가-힣a-zA-Z]/.test(match)`,
then `.slice(0, 10)`. -/
def asciiCollected (binaryText : List Char) : List (List Char) :=
  ((asciiRuns binaryText).filter fun m =>
      4 < m.length ∧ m.any (fun c => !(isWs c)) ∧
        m.any (fun c => isKorSyl c || isLatinLetter c)).take 10

/-- Method 2, mixed pattern, appended only when the match list is
non-null. -/
def hwpMethod2Ascii (binaryText : List Char) : List Char :=
  if asciiRuns binaryText ≠ [] then
    joinSp (asciiCollected binaryText) ++ ['\n']
  else []

/-- JavaScript `.replace(/\s+/g, ' ')`: every whitespace run becomes one
space. -/
def collapseWsAux : List Char → Bool → List Char
  | [], _ => []
  | c :: rest, inWs =>
      if isWs c then
        if inWs then collapseWsAux rest true else ' ' :: collapseWsAux rest true
      else c :: collapseWsAux rest false

/-- Collapse whitespace runs of a text to single spaces. -/
def collapseWs (t : List Char) : List Char := collapseWsAux t false

/-- Control and C1 characters removed by the HWP cleanup,
`[\x00-\x1F\x7F-\x9F]`. -/
def isCtlWide (c : Char) : Bool :=
  c.toNat ≤ 0x1F || (0x7F ≤ c.toNat && c.toNat ≤ 0x9F)

/-- The HWP cleanup chain: collapse whitespace, strip control characters,
trim. -/
def hwpClean (t : List Char) : List Char :=
  trimChars ((collapseWs t).filter fun c => !(isCtlWide c))

/-- The fixed informational message emitted when salvage yields fewer than
10 characters: file name, size in KB, and manual-conversion suggestions. -/
def hwpInfoMessage (basename : String) (sizeKB : ℕ) : List Char :=
  ("HWP 파일 정보:\n파일명: " ++ basename ++ "\n파일 크기: " ++ toString sizeKB ++
   " KB\n\n이 파일은 한글과컴퓨터의 HWP 형식입니다.\n텍스트 추출이 제한적일 수 있습니다.\n\n" ++
   "완전한 변환을 위해서는:\n1. 한글 프로그램에서 파일을 열어주세요\n" ++
   "2. 텍스트 형식(.txt)으로 저장 후 업로드해보세요\n" ++
   "3. 또는 Word 형식(.docx)으로 저장 후 업로드해보세요").data

/-- The salvage accumulated by the HWP branch before cleanup. -/
def hwpRawSalvage (decodes : List String) (binaryText : List Char) : List Char :=
  hwpMethod1 decodes ++ hwpMethod2Kor binaryText ++ hwpMethod2Ascii binaryText

/-- `Math.round(buffer.length / 1024)` on naturals (round half up). -/
def roundKB (bufLen : ℕ) : ℕ := (bufLen + 512) / 1024

/-- The text the `.hwp`/`.hwpx` branch hands to `createTextImage`:
the cleaned salvage under the 10-character threshold yields the fixed
informational message; otherwise the salvage is prefixed with the fixed
header, truncated to 2000 characters, and suffixed with the truncation
marker when over budget. -/
def hwpExtract (decodes : List String) (binaryText : List Char)
    (basename : String) (bufLen : ℕ) : List Char :=
  let cleaned := hwpClean (hwpRawSalvage decodes binaryText)
  if cleaned.length < 10 then hwpInfoMessage basename (roundKB bufLen)
  else
    ("HWP 문서에서 추출된 텍스트:\n\n").data ++ cleaned.take 2000 ++
      (if 2000 < cleaned.length then ("\n\n... (텍스트가 잘렸습니다)").data else [])

/-- C3: the compression planner maps the named tiers to the fixed pairs
low = (quality 95, ratio 0.9), medium = (80, 0.7), high = (60, 0.5); for the
custom tier with a truthy target size the computed ratio is mapped to
quality by the thresholds ratio>0.9→95, >0.7→85, >0.5→70, >0.3→55, else 40;
the returned quality always lies in [10, 100]; and for targetSizeKB = 100
against an aggregate input of 1000 KB the computed ratio is 0.1 and the
quality is 40. -/
theorem claim_C3 :
    (∀ t c, calculateCompressionSettings "low" t c = ⟨95, 9/10⟩) ∧
    (∀ t c, calculateCompressionSettings "medium" t c = ⟨80, 7/10⟩) ∧
    (∀ t c, calculateCompressionSettings "high" t c = ⟨60, 1/2⟩) ∧
    (∀ t c : ℚ, t ≠ 0 → c ≠ 0 →
      calculateCompressionSettings "custom" (some t) c =
        ⟨if t / c > 9/10 then 95 else if t / c > 7/10 then 85
          else if t / c > 1/2 then 70 else if t / c > 3/10 then 55 else 40,
         t / c⟩) ∧
    (∀ ct t c, 10 ≤ (calculateCompressionSettings ct t c).quality ∧
      (calculateCompressionSettings ct t c).quality ≤ 100) ∧
    calculateCompressionSettings "custom" (some 100) 1000 = ⟨40, 1/10⟩ := by
  refine ⟨fun t c => rfl, fun t c => rfl, fun t c => rfl, ?_, ?_, ?_⟩
  · intro t c ht hc
    simp only [calculateCompressionSettings, compressionPair, clampQuality]
    rw [if_pos ⟨ht, hc⟩]
    split_ifs <;> rfl
  · intro ct t c
    exact ⟨le_max_left _ _, max_le (by norm_num) (min_le_left _ _)⟩
  · norm_num [calculateCompressionSettings, compressionPair, clampQuality]

/-- Witness for C3 at a concrete custom request: target 4 KB against 5 KB
of input gives ratio 0.8 and quality 85. -/
theorem claim_C3_witness :
    calculateCompressionSettings "custom" (some 4) 5 = ⟨85, 4/5⟩ := by
  rw [claim_C3.2.2.2.1 4 5 (by norm_num) (by norm_num)]
  norm_num

/-- C2 counterexample: the claim asserts ratio = min(1, target/aggregate)
when a target size is given and ratio = the caller's explicit
compressionRatio otherwise.  At target 2000 KB over 1000 KB of input the
code keeps the unclamped ratio 2 (min would give 1), and with no target the
code returns ratio 1 even when the caller supplied compressionRatio 0.3,
because the route never forwards that field. -/
theorem claim_C2_counterexample :
    (convertPlan "custom" (some 2000) none [1024000]).compressionRatio = 2 ∧
    min 1 ((2000 : ℚ) / 1000) ≠ 2 ∧
    (convertPlan "custom" none (some (3/10)) [1024000]).compressionRatio = 1 ∧
    (1 : ℚ) ≠ 3/10 := by
  norm_num [convertPlan, calculateCompressionSettings, compressionPair]

/-- C2 amended: for the custom tier with a truthy explicit target size the
planner keeps ratio = targetSizeKB / (aggregateBytes/1024) with no min(1,·)
clamp (the ratio may exceed 1); with no target size the result is the
initial pair quality 80, ratio 1; and the caller's explicit
compressionRatio is ignored entirely by the conversion route. -/
theorem claim_C2_amended :
    (∀ (t : ℚ) (r : Option ℚ) (sizes : List ℚ), t ≠ 0 → sizes.sum ≠ 0 →
      (convertPlan "custom" (some t) r sizes).compressionRatio =
        t / (sizes.sum / 1024)) ∧
    (∀ (r : Option ℚ) (sizes : List ℚ),
      convertPlan "custom" none r sizes = ⟨80, 1⟩) ∧
    (∀ ct t r r' sizes, convertPlan ct t r sizes = convertPlan ct t r' sizes) := by
  refine ⟨?_, fun r sizes => rfl, fun ct t r r' sizes => rfl⟩
  intro t r sizes ht hs
  have hden : sizes.sum / 1024 ≠ (0 : ℚ) := by
    simpa using hs
  simp only [convertPlan, calculateCompressionSettings, compressionPair]
  rw [if_pos ⟨ht, hden⟩]

/-- Witness for C2 amended: the unclamped ratio 2000/1000 = 2 at a concrete
request. -/
theorem claim_C2_witness :
    (convertPlan "custom" (some 2000) none [1024000]).compressionRatio =
      2000 / (([1024000] : List ℚ).sum / 1024) :=
  claim_C2_amended.1 2000 none [1024000] (by norm_num) (by norm_num)

/-- Pages contributed by one file, counted. -/
theorem pagesFor_length (q : ℤ) (f : ConvFile) :
    (pagesFor q f).length = pageContribution f := by
  cases h : f.outcome <;> simp [pagesFor, pageContribution, h]

/-- Whether an outcome is neither a native PDF copy nor a silent conversion
failure, so it contributes one page unless missing. -/
def singlePageOutcome : FileOutcome → Bool
  | .missing => true
  | .pdfPages _ => false
  | .imageOk => true
  | .imageFail => false
  | .raises _ => true

/-- C1 counterexample: the claim asserts every descriptor contributes
exactly one page (zero when missing), hence page count ≤ file count.  A
single 3-page native PDF input yields 3 output pages, exceeding the input
file count 1. -/
theorem claim_C1_counterexample :
    (assemblePages 80 [⟨"a.pdf", "a.pdf", FileOutcome.pdfPages 3⟩]).length = 3 ∧
    ¬ ((assemblePages 80 [⟨"a.pdf", "a.pdf", FileOutcome.pdfPages 3⟩]).length ≤
        ([⟨"a.pdf", "a.pdf", FileOutcome.pdfPages 3⟩] : List ConvFile).length) := by
  decide

/-- C1 amended: the output page count is the sum of per-file contributions,
where a missing file or a silently failed conversion contributes zero
pages, a successful non-PDF conversion or a caught per-file exception
contributes exactly one, and a native PDF contributes as many pages as its
source has; when the batch contains no native PDFs and no silent conversion
failures, page count plus the number of missing files equals the input file
count. -/
theorem claim_C1_amended : ∀ (q : ℤ) (files : List ConvFile),
    (assemblePages q files).length = (files.map pageContribution).sum ∧
    ((∀ f ∈ files, singlePageOutcome f.outcome = true) →
      (assemblePages q files).length +
        (files.countP fun f => decide (f.outcome = FileOutcome.missing)) =
        files.length) := by
  intro q files
  constructor
  · simp [assemblePages, Function.comp_def, pagesFor_length]
  · intro hok
    induction files with
    | nil => simp [assemblePages]
    | cons f fs ih =>
        have hf := hok f (List.mem_cons_self f fs)
        have hfs := ih fun g hg => hok g (List.mem_cons_of_mem f hg)
        have hsplit : (assemblePages q (f :: fs)).length =
            (pagesFor q f).length + (assemblePages q fs).length := by
          simp [assemblePages]
        rw [hsplit, List.countP_cons, List.length_cons]
        cases h : f.outcome with
        | missing => simp [pagesFor, h]; omega
        | pdfPages n => rw [h] at hf; simp [singlePageOutcome] at hf
        | imageOk => simp [pagesFor, h]; omega
        | imageFail => rw [h] at hf; simp [singlePageOutcome] at hf
        | raises m => simp [pagesFor, h]; omega

/-- Witness for C1 amended: one missing file plus one converted file gives
one page and one missing, totalling the input count 2. -/
theorem claim_C1_witness :
    (assemblePages 80 [⟨"a.txt", "a.txt", FileOutcome.missing⟩,
        ⟨"b.txt", "b.txt", FileOutcome.imageOk⟩]).length +
      (([⟨"a.txt", "a.txt", FileOutcome.missing⟩,
         ⟨"b.txt", "b.txt", FileOutcome.imageOk⟩] : List ConvFile).countP
        fun f => decide (f.outcome = FileOutcome.missing)) =
      ([⟨"a.txt", "a.txt", FileOutcome.missing⟩,
        ⟨"b.txt", "b.txt", FileOutcome.imageOk⟩] : List ConvFile).length :=
  (claim_C1_amended 80 _).2 (by decide)

/-- C6: a per-file exception in the assembler loop is caught locally and
replaced by a single error-banner page carrying the original name and the
message, with the files before and after it processed unchanged; and inside
`convertToImage` every non-PDF format branch converts a thrown extraction
error into a diagnostic error image instead of propagating it. -/
theorem claim_C6 :
    (∀ (q : ℤ) (xs ys : List ConvFile) (f : ConvFile) (msg : String),
      f.outcome = FileOutcome.raises msg →
      assemblePages q (xs ++ f :: ys) =
        assemblePages q xs ++ Page.error f.originalname msg :: assemblePages q ys) ∧
    (∀ (ext m : String), ext ≠ ".pdf" →
      ∃ d, convertToImage ext (Except.error m) = ConvOut.errorImage d) := by
  constructor
  · intro q xs ys f msg h
    simp [assemblePages, pagesFor, h]
  · intro ext m hne
    simp only [convertToImage]
    split_ifs <;> exact ⟨_, rfl⟩

/-- Witness for C6: a concrete batch where the middle file throws, and the
DOCX branch substituting its diagnostic for a thrown error. -/
theorem claim_C6_witness :
    (assemblePages 80 [⟨"a.jpg", "a.jpg", FileOutcome.imageOk⟩,
        ⟨"b.txt", "b.txt", FileOutcome.raises "boom"⟩] =
      assemblePages 80 [⟨"a.jpg", "a.jpg", FileOutcome.imageOk⟩] ++
        Page.error "b.txt" "boom" :: assemblePages 80 []) ∧
    ∃ d, convertToImage ".docx" (Except.error "bad zip") = ConvOut.errorImage d :=
  ⟨claim_C6.1 80 [⟨"a.jpg", "a.jpg", FileOutcome.imageOk⟩] []
      ⟨"b.txt", "b.txt", FileOutcome.raises "boom"⟩ "boom" rfl,
   claim_C6.2 ".docx" "bad zip" (by decide)⟩

/-- C9 counterexample: the claim asserts deleting an already-removed
identifier is not reported as an error.  Deleting from empty storage
returns status 404 with an explicit error body. -/
theorem claim_C9_counterexample :
    "a.txt" ∉ ([] : List String) ∧
    (deleteEndpoint [] "a.txt").2.status = 404 ∧
    (deleteEndpoint [] "a.txt").2.success = false ∧
    (deleteEndpoint [] "a.txt").2.error = some "File not found" := by
  decide

/-- C9 amended: deleting a stored file removes its storage and reports
success; deleting an identifier whose storage is absent leaves the state
unchanged and reports a 404 File-not-found error; the storage state is
idempotent under repeated deletion (for duplicate-free storage), but the
second deletion is reported as an error, not silently accepted. -/
theorem claim_C9_amended : ∀ (storage : List String) (filename : String),
    (filename ∈ storage →
      deleteEndpoint storage filename = (storage.erase filename, ⟨200, true, none⟩)) ∧
    (filename ∉ storage →
      deleteEndpoint storage filename = (storage, ⟨404, false, some "File not found"⟩)) ∧
    (storage.Nodup →
      (deleteEndpoint (deleteEndpoint storage filename).1 filename).2 =
        ⟨404, false, some "File not found"⟩) := by
  intro storage filename
  refine ⟨fun h => by simp [deleteEndpoint, h],
          fun h => by simp [deleteEndpoint, h], fun hnd => ?_⟩
  by_cases h : filename ∈ storage
  · have h2 : filename ∉ storage.erase filename := fun hmem =>
      ((List.Nodup.mem_erase_iff hnd).1 hmem).1 rfl
    simp [deleteEndpoint, h, h2]
  · simp [deleteEndpoint, h]

/-- Witness for C9 amended: deleting "a" twice from the one-file store ends
with a 404 error response. -/
theorem claim_C9_witness :
    (deleteEndpoint (deleteEndpoint ["a"] "a").1 "a").2 =
      ⟨404, false, some "File not found"⟩ :=
  (claim_C9_amended ["a"] "a").2.2 (by decide)

/-- Every decode accepted by the candidate loop passes the plausibility
validation. -/
theorem firstAccepted_reasonable (o : DecodeOracle) (buf : List ℕ) :
    ∀ (cs : List (Option String)) (d : String),
      firstAccepted o buf cs = some d → looksReasonable d = true := by
  intro cs
  induction cs with
  | nil => intro d h; simp [firstAccepted] at h
  | cons e rest ih =>
      intro d h
      cases e with
      | none => exact ih d h
      | some enc =>
          by_cases hex : o.encodingExists enc
          · rcases hdec : o.decode enc buf with _ | dd
            · simp only [firstAccepted, if_pos hex, hdec] at h
              exact ih d h
            · simp only [firstAccepted, if_pos hex, hdec] at h
              by_cases hpl : looksReasonable dd = true
              · rw [if_pos hpl] at h
                cases h
                exact hpl
              · rw [if_neg hpl] at h
                exact ih d h
          · simp only [firstAccepted, if_neg hex] at h
            exact ih d h

/-- C5: the recovery chain is total over the oracle model — for every
buffer it returns the first candidate decode passing validation when one
exists (and that decode is plausible), and otherwise falls back to the
naive UTF-8 decode of the buffer. -/
theorem claim_C5 : ∀ (o : DecodeOracle) (buf : List ℕ),
    (firstAccepted o buf (encodingCandidates o buf) = none →
      detectAndConvertEncoding o buf = o.utf8 buf) ∧
    ∀ d, firstAccepted o buf (encodingCandidates o buf) = some d →
      detectAndConvertEncoding o buf = d ∧ looksReasonable d = true := by
  intro o buf
  constructor
  · intro h
    simp [detectAndConvertEncoding, h]
  · intro d h
    exact ⟨by simp [detectAndConvertEncoding, h],
           firstAccepted_reasonable o buf _ d h⟩

/-- An oracle with no detector result, no known encodings and failing
decodes: the worst case for the recovery chain. -/
def nullOracle : DecodeOracle :=
  { detect := fun _ => none
    encodingExists := fun _ => false
    decode := fun _ _ => none
    utf8 := fun _ => "fallback" }

/-- Witness for C5: on the empty buffer with every collaborator failing,
the recovery returns the naive UTF-8 decode. -/
theorem claim_C5_witness :
    detectAndConvertEncoding nullOracle [] = nullOracle.utf8 [] :=
  (claim_C5 nullOracle []).1 rfl

/-- C10: `createTextImage` truncates to 3000 characters before control
stripping, escaping and wrapping, so for non-blank inputs the rendered page
depends only on the first 3000 characters of the recovered text — two
non-blank texts agreeing there produce identical clean text, wrapped lines
and displayed lines, regardless of the 40-line limit. -/
theorem claim_C10 : ∀ s t : List Char, isBlank s = false → isBlank t = false →
    s.take 3000 = t.take 3000 →
    cleanText s = cleanText t ∧ textLines s = textLines t ∧
      displayLines s = displayLines t := by
  intro s t hs ht hst
  have hc : cleanText s = cleanText t := by
    simp [cleanText, prepareText, hs, ht, hst]
  refine ⟨hc, by simp [textLines, hc], by simp [displayLines, textLines, hc]⟩

/-- Witness for C10: two texts agreeing on their first 3000 characters but
differing afterwards render identically. -/
theorem claim_C10_witness :
    cleanText (List.replicate 3000 'a' ++ ['b']) =
      cleanText (List.replicate 3000 'a' ++ ['c']) ∧
    textLines (List.replicate 3000 'a' ++ ['b']) =
      textLines (List.replicate 3000 'a' ++ ['c']) ∧
    displayLines (List.replicate 3000 'a' ++ ['b']) =
      displayLines (List.replicate 3000 'a' ++ ['c']) :=
  claim_C10 _ _
    (by
      rw [isBlank, List.all_eq_false]
      exact ⟨'a', List.mem_append_left _ (List.mem_replicate.2 ⟨by norm_num, rfl⟩),
        by decide⟩)
    (by
      rw [isBlank, List.all_eq_false]
      exact ⟨'a', List.mem_append_left _ (List.mem_replicate.2 ⟨by norm_num, rfl⟩),
        by decide⟩)
    (by rw [List.take_left' (List.length_replicate 3000 'a'),
            List.take_left' (List.length_replicate 3000 'a')])

/-- Every line emitted by the wrapping loop is short, is the residual
current line, or is a suffix of one of the remaining tokens. -/
theorem wrapLoop_mem : ∀ (ws : List (List Char)) (cur l : List Char),
    l ∈ wrapLoop 70 ws cur →
    l.length ≤ 70 ∨ l = cur ∨ ∃ w ∈ ws, l <:+ w := by
  intro ws
  induction ws with
  | nil =>
      intro cur l h
      by_cases hc : cur = [] <;> simp [wrapLoop, hc] at h
      right; left; exact h
  | cons w ws ih =>
      intro cur l h
      rw [wrapLoop] at h
      by_cases h1 : cur.length + 1 + w.length ≤ 70
      · rw [if_pos h1] at h
        rcases ih _ l h with hl | hl | ⟨u, hu, hsuf⟩
        · exact Or.inl hl
        · left
          subst hl
          by_cases hc : cur = []
          · rw [if_pos hc]
            rw [hc] at h1
            simp only [List.length_nil] at h1
            omega
          · rw [if_neg hc]
            simp only [List.length_append, List.length_cons]
            omega
        · exact Or.inr (Or.inr ⟨u, List.mem_cons_of_mem _ hu, hsuf⟩)
      · rw [if_neg h1] at h
        by_cases hc : cur = []
        · rw [if_pos hc] at h
          rcases List.mem_cons.1 h with hl | hl
          · left
            subst hl
            simp [List.length_take]
          · rcases ih _ l hl with h3 | h3 | ⟨u, hu, hsuf⟩
            · exact Or.inl h3
            · subst h3
              exact Or.inr (Or.inr ⟨w, List.mem_cons_self w ws, List.drop_suffix 70 w⟩)
            · exact Or.inr (Or.inr ⟨u, List.mem_cons_of_mem _ hu, hsuf⟩)
        · rw [if_neg hc] at h
          rcases List.mem_cons.1 h with hl | hl
          · exact Or.inr (Or.inl hl)
          · rcases ih _ l hl with h3 | h3 | ⟨u, hu, hsuf⟩
            · exact Or.inl h3
            · exact Or.inr (Or.inr ⟨w, List.mem_cons_self w ws, by rw [h3]⟩)
            · exact Or.inr (Or.inr ⟨u, List.mem_cons_of_mem _ hu, hsuf⟩)

/-- The wrapping loop preserves every non-space character: flattening its
output and discarding the separator spaces recovers the pending line and
all remaining tokens. -/
theorem wrapLoop_flatten_filter (p : Char → Bool) (hp : p ' ' = false) :
    ∀ (ws : List (List Char)) (cur : List Char),
      (wrapLoop 70 ws cur).flatten.filter p =
        cur.filter p ++ ws.flatten.filter p := by
  intro ws
  induction ws with
  | nil =>
      intro cur
      by_cases hc : cur = [] <;> simp [wrapLoop, hc]
  | cons w ws ih =>
      intro cur
      rw [wrapLoop]
      by_cases h1 : cur.length + 1 + w.length ≤ 70
      · rw [if_pos h1, ih]
        by_cases hc : cur = []
        · rw [if_pos hc]
          simp [hc, List.flatten_cons, List.filter_append]
        · rw [if_neg hc]
          simp [List.flatten_cons, List.filter_append, List.filter_cons, hp,
                List.append_assoc]
      · rw [if_neg h1]
        by_cases hc : cur = []
        · rw [if_pos hc]
          simp only [List.flatten_cons, List.filter_append, ih]
          rw [← List.append_assoc, ← List.filter_append, List.take_append_drop]
          simp [hc, List.filter_append]
        · rw [if_neg hc]
          simp [List.flatten_cons, List.filter_append, ih, List.append_assoc]

/-- Flattening the whitespace split recovers exactly the non-whitespace
characters (joint statement for the two mutual scanner states). -/
theorem splitWs_aux_run_flatten : ∀ t : List Char,
    (∀ acc, (splitWsAux t acc).flatten =
      acc.reverse ++ t.filter fun c => !(isWs c)) ∧
    (splitWsRun t).flatten = t.filter fun c => !(isWs c) := by
  intro t
  induction t with
  | nil => exact ⟨fun acc => by simp [splitWsAux], by simp [splitWsRun]⟩
  | cons c rest ih =>
      refine ⟨fun acc => ?_, ?_⟩
      · by_cases h : isWs c
        · simp [splitWsAux, h, ih.2, List.filter_cons]
        · rw [splitWsAux]
          simp only [h, if_false, Bool.false_eq_true]
          rw [ih.1 (c :: acc)]
          simp [List.filter_cons, h]
      · by_cases h : isWs c
        · simp [splitWsRun, h, ih.2, List.filter_cons]
        · rw [splitWsRun]
          simp only [h, if_false, Bool.false_eq_true]
          rw [ih.1 [c]]
          simp [List.filter_cons, h]

/-- Flattening the whitespace split of a text gives its non-whitespace
characters in order. -/
theorem splitWs_flatten (t : List Char) :
    (splitWs t).flatten = t.filter fun c => !(isWs c) := by
  simpa [splitWs] using (splitWs_aux_run_flatten t).1 []

/-- C4 counterexample: the claim asserts every layout line stays within 70
characters except that an oversized token is hard-split with the excess
carried over.  Feeding "hi " followed by a 71-character token makes the
loop flush "hi" and adopt the oversized token as the current line whole: it
is emitted intact as a 71-character line, never hard-split. -/
theorem claim_C4_counterexample :
    List.replicate 71 'a' ∈ displayLines ('h' :: 'i' :: ' ' :: List.replicate 71 'a') ∧
    70 < (List.replicate 71 'a').length ∧
    displayLines ('h' :: 'i' :: ' ' :: List.replicate 71 'a') =
      [['h', 'i'], List.replicate 71 'a'] := by
  decide

/-- C4 amended: the rendered layout has at most 40 lines; every wrapped
line either fits the 70-character budget or is a suffix of a single input
token longer than 70 characters (the whole token when it arrived on a
non-empty line and was flushed unsplit, or the carried excess after the
one hard-split applied to tokens starting a fresh line); and the wrapping
itself drops no characters — the non-whitespace characters of the wrapped
lines are exactly those of the clean text, in order.  Lines beyond the
40th are cut by the display slice, with an explicit truncation marker
rendered. -/
theorem claim_C4_amended : ∀ t : List Char,
    (displayLines t).length ≤ 40 ∧
    (∀ l ∈ textLines t, l.length ≤ 70 ∨
      ∃ w ∈ splitWs (cleanText t), 70 < w.length ∧ l <:+ w) ∧
    (textLines t).flatten.filter (fun c => !(isWs c)) =
      (cleanText t).filter (fun c => !(isWs c)) := by
  intro t
  refine ⟨?_, ?_, ?_⟩
  · simp [displayLines, List.length_take]
  · intro l hl
    rcases wrapLoop_mem _ _ _ hl with h | h | ⟨w, hw, hsuf⟩
    · exact Or.inl h
    · left
      rw [h]
      simp
    · by_cases hlen : l.length ≤ 70
      · exact Or.inl hlen
      · refine Or.inr ⟨w, hw, ?_, hsuf⟩
        have := hsuf.length_le
        omega
  · rw [textLines, wrapLoop_flatten_filter _ (by decide), splitWs_flatten]
    simp [List.filter_filter]

/-- Witness for C4 amended at a concrete short input: the single wrapped
line "hi" fits the budget. -/
theorem claim_C4_witness :
    ("hi").data.length ≤ 70 ∨
      ∃ w ∈ splitWs (cleanText ("hi").data), 70 < w.length ∧ ("hi").data <:+ w :=
  (claim_C4_amended ("hi").data).2.1 ("hi").data (by decide)

/-- C7: the Excel branch serializes only the first three sheets, each block
opening with its bracketed sheet-name header followed by at most 20 kept
data rows and the optional row-truncation notice; on the scenario workbook
of five sheets with 30 rows each, the extracted text is exactly the three
sheet blocks (each with 20 kept rows and a row notice) followed by the
single more-sheets notice for the remaining two sheets. -/
theorem claim_C7 :
    (∀ s : Sheet, (keptRows s).length ≤ 20) ∧
    (∀ wb : Workbook,
      ((wb.sheets.take 3).map sheetBlock).length = min 3 wb.sheets.length) ∧
    (∀ s : Sheet, sheetBlock s = '[' :: s.sheetName.data ++ [']', '\n'] ++
      ((keptRows s).map (fun r => r ++ ['\n'])).flatten ++
      (if rowNotice s then ("... (더 많은 행이 있습니다)\n").data else []) ++ ['\n']) ∧
    excelExtract ⟨[⟨"Sheet1", List.replicate 30 ["a", "b"]⟩,
        ⟨"Sheet2", List.replicate 30 ["a", "b"]⟩,
        ⟨"Sheet3", List.replicate 30 ["a", "b"]⟩,
        ⟨"Sheet4", List.replicate 30 ["a", "b"]⟩,
        ⟨"Sheet5", List.replicate 30 ["a", "b"]⟩]⟩ =
      sheetBlock ⟨"Sheet1", List.replicate 30 ["a", "b"]⟩ ++
        sheetBlock ⟨"Sheet2", List.replicate 30 ["a", "b"]⟩ ++
        sheetBlock ⟨"Sheet3", List.replicate 30 ["a", "b"]⟩ ++
        ("... 그리고 2개의 시트가 더 있습니다.").data ∧
    (keptRows ⟨"Sheet1", List.replicate 30 ["a", "b"]⟩).length = 20 ∧
    rowNotice ⟨"Sheet1", List.replicate 30 ["a", "b"]⟩ = true := by
  refine ⟨?_, ?_, fun s => rfl, ?_, ?_, ?_⟩
  · intro s
    exact le_trans (List.length_filterMap_le _ _) (by simp [List.length_take])
  · intro wb
    simp [List.length_take]
  · decide
  · decide
  · decide

/-- Characters of every run returned by the run scanner satisfy the class
predicate and come from the scanned text (or the pending accumulator). -/
theorem runsAux_chars (p : Char → Bool) : ∀ (s acc : List Char),
    (∀ c ∈ acc, p c = true) →
    ∀ m ∈ runsAux p s acc, ∀ c ∈ m, p c = true ∧ (c ∈ s ∨ c ∈ acc) := by
  intro s
  induction s with
  | nil =>
      intro acc hacc m hm c hc
      by_cases h : acc = [] <;> simp [runsAux, h] at hm
      subst hm
      exact ⟨hacc c (List.mem_reverse.1 hc), Or.inr (List.mem_reverse.1 hc)⟩
  | cons a rest ih =>
      intro acc hacc m hm c hc
      rw [runsAux] at hm
      by_cases hpa : p a = true
      · rw [if_pos hpa] at hm
        have hacc2 : ∀ x ∈ a :: acc, p x = true := by
          intro x hx
          rcases List.mem_cons.1 hx with h | h
          · rw [h]; exact hpa
          · exact hacc x h
        rcases ih (a :: acc) hacc2 m hm c hc with ⟨hp, hmem⟩
        refine ⟨hp, ?_⟩
        rcases hmem with h | h
        · exact Or.inl (List.mem_cons_of_mem a h)
        · rcases List.mem_cons.1 h with h2 | h2
          · exact Or.inl (by rw [h2]; exact List.mem_cons_self a rest)
          · exact Or.inr h2
      · rw [if_neg hpa] at hm
        by_cases hacc0 : acc = []
        · rw [if_pos hacc0] at hm
          rcases ih [] (by simp) m hm c hc with ⟨hp, hmem⟩
          refine ⟨hp, ?_⟩
          rcases hmem with h | h
          · exact Or.inl (List.mem_cons_of_mem a h)
          · simp at h
        · rw [if_neg hacc0] at hm
          rcases List.mem_cons.1 hm with h | h
          · refine ⟨hacc c ?_, Or.inr ?_⟩ <;>
              [exact List.mem_reverse.1 (h ▸ hc); exact List.mem_reverse.1 (h ▸ hc)]
          · rcases ih [] (by simp) m h c hc with ⟨hp, hmem⟩
            refine ⟨hp, ?_⟩
            rcases hmem with h2 | h2
            · exact Or.inl (List.mem_cons_of_mem a h2)
            · simp at h2

/-- C8 counterexample: the claim asserts mixed ASCII/target-script runs of
length ≥ 4 are collected.  Scanning "#abcd#efghijklmnop#", the regexp
returns the maximal run "abcd" of length 4, yet the filter `length > 4`
drops it, and the emitted text contains only the longer run. -/
theorem claim_C8_counterexample :
    ("abcd").data ∈ asciiRuns (("#abcd#efghijklmnop#").data) ∧
    ("abcd").data ∉ asciiCollected (("#abcd#efghijklmnop#").data) ∧
    hwpExtract ["", "", "", ""] (("#abcd#efghijklmnop#").data) "doc.hwp" 2048 =
      ("HWP 문서에서 추출된 텍스트:\n\nefghijklmnop").data := by
  decide

/-- C8 amended: the binary mixed-pattern collection keeps only maximal runs
of strictly more than 4 characters (length ≥ 5) containing a letter, capped
to the first 10; the binary Korean pattern, over a byte-derived binary
string (all code points below 256), collects nothing, since its runs can
only consist of whitespace; and the final thresholding emits the fixed
informational message when the cleaned salvage is under 10 characters, and
otherwise the fixed header plus the salvage truncated to 2000 characters
with the truncation suffix exactly when over budget. -/
theorem claim_C8_amended :
    (∀ bt : List Char, ∀ m ∈ asciiCollected bt,
      5 ≤ m.length ∧ m.any (fun c => isKorSyl c || isLatinLetter c) = true) ∧
    (∀ bt : List Char, (asciiCollected bt).length ≤ 10) ∧
    (∀ bt : List Char, (∀ c ∈ bt, c.toNat < 256) → koreanCollected bt = []) ∧
    (∀ (decodes : List String) (bt : List Char) (basename : String) (bufLen : ℕ),
      (hwpClean (hwpRawSalvage decodes bt)).length < 10 →
      hwpExtract decodes bt basename bufLen =
        hwpInfoMessage basename (roundKB bufLen)) ∧
    (∀ (decodes : List String) (bt : List Char) (basename : String) (bufLen : ℕ),
      10 ≤ (hwpClean (hwpRawSalvage decodes bt)).length →
      hwpExtract decodes bt basename bufLen =
        ("HWP 문서에서 추출된 텍스트:\n\n").data ++
          (hwpClean (hwpRawSalvage decodes bt)).take 2000 ++
          (if 2000 < (hwpClean (hwpRawSalvage decodes bt)).length then
            ("\n\n... (텍스트가 잘렸습니다)").data else [])) := by
  refine ⟨?_, ?_, ?_, ?_, ?_⟩
  · intro bt m hm
    have hm2 := List.take_subset 10 _ hm
    rcases List.mem_filter.1 hm2 with ⟨_, hpred⟩
    simp only [decide_eq_true_eq] at hpred
    exact ⟨by omega, hpred.2.2⟩
  · intro bt
    exact List.length_take_le 10 _
  · intro bt hb
    rw [koreanCollected, List.filter_eq_nil_iff]
    intro m hm
    simp only [decide_eq_true_eq, not_and]
    intro _
    rw [Bool.not_eq_true, List.any_eq_false]
    intro c hc
    rcases runsAux_chars korWsClass bt [] (by simp) m hm c hc with ⟨hcls, hmem⟩
    have hbyte : c.toNat < 256 := by
      rcases hmem with h | h
      · exact hb c h
      · simp at h
    have hkw : isKorWide c = false := by
      have h1 : ¬ (0xAC00 ≤ c.toNat) := by omega
      simp [isKorWide, h1]
    have hcls2 : isKorWide c = true ∨ isWs c = true := by
      rw [korWsClass, Bool.or_eq_true] at hcls
      exact hcls
    have hws : isWs c = true := by
      rcases hcls2 with h | h
      · rw [hkw] at h; cases h
      · exact h
    simp [hws]
  · intro decodes bt basename bufLen h
    rw [hwpExtract]
    simp only [if_pos h]
  · intro decodes bt basename bufLen h
    rw [hwpExtract]
    simp only [if_neg (by omega : ¬ (hwpClean (hwpRawSalvage decodes bt)).length < 10)]

/-- Witness for C8 amended: a collected five-letter run satisfies the
length and letter conditions, and a tiny salvage falls back to the fixed
informational message. -/
theorem claim_C8_witness :
    (5 ≤ ("abcde").data.length ∧
      ("abcde").data.any (fun c => isKorSyl c || isLatinLetter c) = true) ∧
    hwpExtract ["", "", "", ""] (("#ab#").data) "doc.hwp" 2048 =
      hwpInfoMessage "doc.hwp" (roundKB 2048) :=
  ⟨claim_C8_amended.1 (("#abcde#").data) (("abcde").data) (by decide),
   claim_C8_amended.2.2.2.1 ["", "", "", ""] (("#ab#").data) "doc.hwp" 2048 (by decide)⟩

end UPC
